import Mathlib

/-!
Shallow embedding of the hyperlimit rate-limiting core
(`src/native/ratelimiter.hpp`) and verification of its specification.

Keys are modelled as byte strings (`List Nat`, each element < 256),
matching the C++ `std::string` byte semantics.  Machine `uint32_t`
arithmetic is modelled on `Nat` with explicit `% 2 ^ 32`; `int64_t`
arithmetic is modelled on `Int` (the spec scopes correctness to 63-bit
ranges, so no wraparound is modelled), with C++ signed division
(truncation toward zero) rendered as `Int.tdiv`.  The single-threaded
semantics models every compare-and-swap as succeeding, i.e. the
uncontended linearization of each operation.
-/

namespace HyperLimit

/-- 2^32, the modulus of C++ `uint32_t` arithmetic. -/
def M32 : Nat := 2 ^ 32

/-- `rotl32` from ratelimiter.hpp: 32-bit rotate left. -/
def rotl32 (x r : Nat) : Nat :=
  ((x <<< r) % M32) ||| (x >>> (32 - r))

/-- `fmix32` from ratelimiter.hpp: murmur3 finalization mix. -/
def fmix32 (h : Nat) : Nat :=
  let h1 := h ^^^ (h >>> 16)
  let h2 := (h1 * 0x85ebca6b) % M32
  let h3 := h2 ^^^ (h2 >>> 13)
  let h4 := (h3 * 0xc2b2ae35) % M32
  h4 ^^^ (h4 >>> 16)

/-- The byte-xor accumulation of the small-key (≤ 4 bytes) path of
`murmur3_32`: `h ^= uint32_t(data[i]) << ((i & 3) * 8)`. -/
def murSmallAcc : List Nat → Nat → Nat → Nat
  | [], _, h => h
  | b :: rest, i, h => murSmallAcc rest (i + 1) (h ^^^ ((b <<< ((i % 4) * 8)) % M32))

/-- The block loop of `murmur3_32` for keys longer than 4 bytes.  C++ reads
`uint32_t` blocks from the byte buffer; x86/arm are little-endian, so a block
is `b0 | b1<<8 | b2<<16 | b3<<24`.  Returns the running hash and the tail
bytes (`len & 3` of them). -/
def murBody (h1 : Nat) : List Nat → Nat × List Nat
  | b0 :: b1 :: b2 :: b3 :: rest =>
    let k1 := b0 ||| (b1 <<< 8) ||| (b2 <<< 16) ||| (b3 <<< 24)
    let k1 := (k1 * 0xcc9e2d51) % M32
    let k1 := rotl32 k1 15
    let k1 := (k1 * 0x1b873593) % M32
    let h := h1 ^^^ k1
    let h := rotl32 h 13
    let h := (h * 5 + 0xe6546b64) % M32
    murBody h rest
  | rest => (h1, rest)

/-- The tail `switch` of `murmur3_32` (fallthrough cases 3, 2, 1). -/
def murTail : List Nat → Nat
  | [] => 0
  | [b0] => b0
  | [b0, b1] => b0 ^^^ (b1 <<< 8)
  | b0 :: b1 :: b2 :: _ => b0 ^^^ (b1 <<< 8) ^^^ (b2 <<< 16)

/-- `murmur3_32` from ratelimiter.hpp, seed 0x12345678, over the key's bytes. -/
def murmur3_32 (key : List Nat) : Nat :=
  let seed := 0x12345678
  let len := key.length
  if len ≤ 4 then
    fmix32 (murSmallAcc key 0 seed ^^^ len)
  else
    let (h1, tail) := murBody seed key
    let h1 :=
      if tail.isEmpty then h1
      else
        let k1 := murTail tail
        let k1 := (k1 * 0xcc9e2d51) % M32
        let k1 := rotl32 k1 15
        let k1 := (k1 * 0x1b873593) % M32
        h1 ^^^ k1
    fmix32 (h1 ^^^ len)

/-- Doubling loop computing the smallest power of two ≥ v reachable within
`fuel` doublings of `acc`. -/
def nextPow2Loop (v : Nat) : Nat → Nat → Nat
  | 0, acc => acc
  | fuel + 1, acc => if v ≤ acc then acc else nextPow2Loop v fuel (2 * acc)

/-- `nextPowerOf2` from ratelimiter.hpp: smallest power of two ≥ v
(`1 << (64 - clz64(v - 1))`, well defined for the v ≥ 1024 the source
always passes; 64 doublings cover the whole uint64 range). -/
def nextPowerOf2 (v : Nat) : Nat :=
  nextPow2Loop v 64 1

/-- The per-key bucket `Entry` of ratelimiter.hpp.  The C++ `valid` flag is
modelled by the enclosing table storing `Option Entry` per slot (`none` =
empty or tombstoned); invalid entries' other fields are never read by the
source. -/
structure Entry where
  tokens : Int
  lastRefill : Int
  blockUntil : Int
  dynamicMaxTokens : Int
  penaltyPoints : Int
  isSlidingWindow : Bool
  baseMaxTokens : Int
  refillTimeMs : Int
  blockDurationMs : Int
  maxPenaltyPoints : Int
  key : List Nat
  distributedKey : List Nat
deriving Repr, DecidableEq

/-- The `Entry(k, max, refill, ...)` constructor; `now` stands for the
`getCurrentTimeMs()` call that initializes `lastRefill`. -/
def Entry.create (k : List Nat) (maxTokens refill : Int) (sliding : Bool)
    (blockMs maxPenalty : Int) (distKey : List Nat) (now : Int) : Entry :=
  { tokens := maxTokens
    lastRefill := now
    blockUntil := 0
    dynamicMaxTokens := maxTokens
    penaltyPoints := 0
    isSlidingWindow := sliding
    baseMaxTokens := maxTokens
    refillTimeMs := refill
    blockDurationMs := blockMs
    maxPenaltyPoints := maxPenalty
    key := k
    distributedKey := distKey }

/-- `Entry::calculateDynamicLimit` from ratelimiter.hpp. -/
def Entry.calculateDynamicLimit (e : Entry) : Int :=
  if e.maxPenaltyPoints ≤ 0 then e.baseMaxTokens
  else
    let points := e.penaltyPoints
    if points ≤ 0 then e.baseMaxTokens
    else
      let points := min points e.maxPenaltyPoints
      let reduction := Int.tdiv (points * e.baseMaxTokens) e.maxPenaltyPoints
      let maxReduction := Int.tdiv (e.baseMaxTokens * 9) 10
      let reduction := min reduction maxReduction
      let newLimit := e.baseMaxTokens - reduction
      let minLimit := max (Int.tdiv (e.baseMaxTokens + 9) 10) 1
      max newLimit minLimit

/-- `RateLimiter::refillTokens` from ratelimiter.hpp, with `now` the value of
`getCurrentTimeMs()` and the CAS on `lastRefill` taken as succeeding (the
single-threaded linearization; CAS losers simply re-run the winner-observing
loop and return). -/
def refillTokens (e : Entry) (now : Int) : Entry :=
  let timePassed := now - e.lastRefill
  if timePassed < e.refillTimeMs ∧ e.isSlidingWindow = false then e
  else
    let dynamicLimit := e.calculateDynamicLimit
    if e.isSlidingWindow then
      let tokensToAdd := Int.tdiv (dynamicLimit * timePassed) e.refillTimeMs
      let newTokens := min (e.tokens + tokensToAdd) dynamicLimit
      { e with lastRefill := now, dynamicMaxTokens := dynamicLimit, tokens := newTokens }
    else
      { e with lastRefill := now, dynamicMaxTokens := dynamicLimit, tokens := dynamicLimit }

/-- `RateLimiter::isBlocked` from ratelimiter.hpp: returns the verdict and the
possibly updated entry (it clears an elapsed `blockUntil` to 0). -/
def isBlocked (e : Entry) (now : Int) : Bool × Entry :=
  if e.blockUntil = 0 then (false, e)
  else if now ≥ e.blockUntil then (false, { e with blockUntil := 0 })
  else (true, e)

/-- Outcome of the distributed backend's `tryAcquire` call as observed by the
core: returned true, returned false, or threw (the core swallows the throw). -/
inductive AcqOutcome
  | acquired
  | denied
  | threw
deriving Repr, DecidableEq

/-- Result of `tryRequest` on one entry: the verdict, the updated entry, and
whether the compensating `release(distributedKey, 1)` call was issued. -/
structure TryResult where
  admitted : Bool
  entry : Entry
  released : Bool
deriving Repr, DecidableEq

/-- The per-entry body of `RateLimiter::tryRequest` (after IP-list checks and
`findEntry`), from ratelimiter.hpp.  `hasBackend` models `distributedStorage`
being attached; `acq` is the behaviour of `tryAcquire` were it called.  The
token CAS loop is taken at its linearization: one load of `tokens` decides
the branch. -/
def tryRequestE (hasBackend : Bool) (acq : AcqOutcome) (e : Entry) (now : Int) :
    TryResult :=
  if e.blockUntil > now then
    { admitted := false, entry := e, released := false }
  else
    let e1 := refillTokens e now
    let distActive := hasBackend && !e1.distributedKey.isEmpty
    if distActive = true ∧ acq = AcqOutcome.denied then
      { admitted := false, entry := e1, released := false }
    else
      let currentTokens := e1.tokens
      if currentTokens ≤ 0 then
        let e2 :=
          if e1.blockDurationMs > 0 then
            { e1 with blockUntil := now + e1.blockDurationMs }
          else e1
        { admitted := false, entry := e2, released := distActive }
      else
        { admitted := true, entry := { e1 with tokens := currentTokens - 1 },
          released := false }

/-- The per-entry body of `RateLimiter::addPenalty` from ratelimiter.hpp:
an unconditional atomic add followed by a dynamic-limit recomputation,
all gated on `maxPenaltyPoints > 0`. -/
def addPenaltyE (e : Entry) (points : Int) : Entry :=
  if e.maxPenaltyPoints > 0 then
    let e1 := { e with penaltyPoints := e.penaltyPoints + points }
    { e1 with dynamicMaxTokens := e1.calculateDynamicLimit }
  else e

/-- The per-entry body of `RateLimiter::removePenalty` from ratelimiter.hpp:
the CAS loop runs only while the loaded value is > 0 and stores
`max 0 (current - points)`, then recomputes the dynamic limit. -/
def removePenaltyE (e : Entry) (points : Int) : Entry :=
  if e.maxPenaltyPoints > 0 then
    if e.penaltyPoints > 0 then
      let e1 := { e with penaltyPoints := max 0 (e.penaltyPoints - points) }
      { e1 with dynamicMaxTokens := e1.calculateDynamicLimit }
    else e
  else e

/-- The HTTP readout struct `RateLimitInfo` of ratelimiter.hpp. -/
structure RateLimitInfo where
  limit : Int
  remaining : Int
  reset : Int
  blocked : Bool
  retryAfter : Int
deriving Repr, DecidableEq

/-- The per-entry body of `RateLimiter::getRateLimitInfo` from
ratelimiter.hpp: refill, then a pure read-out; `blockUntil` is only read,
never written. -/
def getRateLimitInfoE (e : Entry) (now : Int) : RateLimitInfo × Entry :=
  let e1 := refillTokens e now
  let dynamicLimit := e1.calculateDynamicLimit
  let currentTokens := e1.tokens
  let blockedUntil := e1.blockUntil
  let blocked := blockedUntil > now
  let retryAfter := if blocked then Int.tdiv (blockedUntil - now) 1000 else 0
  let currentTokens' := if blocked then 0 else currentTokens
  let reset := e1.lastRefill + e1.refillTimeMs
  ({ limit := dynamicLimit, remaining := max 0 currentTokens', reset := reset,
     blocked := blocked, retryAfter := retryAfter }, e1)

/-- The open-addressed bucket table of `RateLimiter`: `bucketCount` slots
(always a power of two), each holding `none` (invalid: empty or tombstoned)
or a valid `Entry`. -/
structure Table where
  bucketCount : Nat
  slots : Nat → Option Entry

/-- The `RateLimiter(bucketCount)` constructor:
`nextPowerOf2(max(1024, bucketCount))` empty slots. -/
def mkTable (bucketCount : Nat) : Table :=
  { bucketCount := nextPowerOf2 (max 1024 bucketCount), slots := fun _ => none }

/-- The probe loop of `RateLimiter::findEntry`, returning the index of the
slot holding `key`.  Arguments: current index, probes so far, and remaining
fuel (`bucketCount - probes`, enforcing `while (probes < BUCKET_COUNT)`).
Stops on the first invalid slot; after 8 probes adds the stride
`(h >> 16) | 1`. -/
def findLoop (slots : Nat → Option Entry) (mask h : Nat) (key : List Nat) :
    Nat → Nat → Nat → Option Nat
  | _, _, 0 => none
  | idx, probes, fuel + 1 =>
    match slots idx with
    | none => none
    | some e =>
      if e.key = key then some idx
      else
        let idx1 := (idx + 1) &&& mask
        let probes1 := probes + 1
        let idx2 :=
          if probes1 > 8 then (idx1 + ((h >>> 16) ||| 1)) &&& mask else idx1
        findLoop slots mask h key idx2 probes1 fuel

/-- `RateLimiter::findEntry`, returning the slot index of the entry for
`key` (the C++ returns an `Entry*`; the index identifies the same slot and
lets table operations write back through it). -/
def findIdx (t : Table) (key : List Nat) : Option Nat :=
  if key = [] then none
  else
    let h := murmur3_32 key
    findLoop t.slots (t.bucketCount - 1) h key (h &&& (t.bucketCount - 1)) 0
      t.bucketCount

/-- `findEntry` as an entry lookup. -/
def findEntry (t : Table) (key : List Nat) : Option Entry :=
  match findIdx t key with
  | none => none
  | some i => t.slots i

/-- The probe loop of `RateLimiter::createLimiter`: returns the index to
store the new entry at — the matching valid slot if one is found, otherwise
(after `BUCKET_COUNT` probes, i.e. fuel exhaustion) the first invalid slot
remembered along the way (`none` means a full table: resize needed).
`createLimiter`'s probing is purely linear; it never applies the stride. -/
def createLoop (slots : Nat → Option Entry) (mask : Nat) (key : List Nat) :
    Nat → Option Nat → Nat → Option Nat
  | _, firstInvalid, 0 => firstInvalid
  | idx, firstInvalid, fuel + 1 =>
    match slots idx with
    | some e =>
      if e.key = key then some idx
      else createLoop slots mask key ((idx + 1) &&& mask) firstInvalid fuel
    | none =>
      let firstInvalid1 := if firstInvalid.isNone then some idx else firstInvalid
      createLoop slots mask key ((idx + 1) &&& mask) firstInvalid1 fuel

/-- The insertion loop of `RateLimiter::resize`: pure linear probing to the
first invalid slot of the fresh, larger array (which always has one; the
fuel-0 fallback is unreachable for the doubled table). -/
def resizeInsertLoop (slots : Nat → Option Entry) (mask : Nat) (e : Entry) :
    Nat → Nat → (Nat → Option Entry)
  | _, 0 => slots
  | idx, fuel + 1 =>
    match slots idx with
    | none => Function.update slots idx (some e)
    | some _ => resizeInsertLoop slots mask e ((idx + 1) &&& mask) fuel

/-- `RateLimiter::resize`: double the table and rehash every valid entry in
slot order with the new mask. -/
def resize (t : Table) : Table :=
  let newSize := 2 * t.bucketCount
  let newSlots :=
    (List.range t.bucketCount).foldl
      (fun acc i =>
        match t.slots i with
        | none => acc
        | some e =>
          resizeInsertLoop acc (newSize - 1) e
            (murmur3_32 e.key &&& (newSize - 1)) newSize)
      (fun _ => none)
  { bucketCount := newSize, slots := newSlots }

/-- The insert-or-replace phase of `RateLimiter::createLimiter` (after
argument validation): probe, store the new entry, resizing and retrying when
the table is full.  The fuel bounds the number of resizes (the source loops
unboundedly; no sequence considered here ever resizes more than 64 times). -/
def createInsert : Nat → Table → List Nat → Entry → Table
  | 0, t, _, _ => t
  | resizeFuel + 1, t, key, e =>
    let h := murmur3_32 key
    let mask := t.bucketCount - 1
    match createLoop t.slots mask key (h &&& mask) none t.bucketCount with
    | some i => { t with slots := Function.update t.slots i (some e) }
    | none => createInsert resizeFuel (resize t) key e

/-- `RateLimiter::createLimiter` from ratelimiter.hpp: the four argument
checks (there is none for `maxPenaltyPoints`), then insert-or-replace. -/
def createLimiter (t : Table) (key : List Nat) (maxTokens refillTimeMs : Int)
    (useSlidingWindow : Bool) (blockDurationMs maxPenaltyPoints : Int)
    (distributedKey : List Nat) (now : Int) : Except String Table :=
  if key = [] then .error "Key cannot be empty"
  else if maxTokens < 0 then .error "maxTokens cannot be negative"
  else if refillTimeMs ≤ 0 then .error "refillTimeMs must be positive"
  else if blockDurationMs < 0 then .error "blockDurationMs cannot be negative"
  else
    .ok (createInsert 64 t key
      (Entry.create key maxTokens refillTimeMs useSlidingWindow blockDurationMs
        maxPenaltyPoints distributedKey now))

/-- Whether an `Except` result is an error (a raised `std::invalid_argument`). -/
def isErr : Except String Table → Bool
  | .error _ => true
  | .ok _ => false

/-- Unwrap a `createLimiter` result, keeping the old table on error (used
only to chain concrete scenarios whose arguments pass validation). -/
def okOr (t : Table) : Except String Table → Table
  | .ok t' => t'
  | .error _ => t

/-- `RateLimiter::removeLimiter`: tombstone the found slot (`valid = false`). -/
def removeLimiter (t : Table) (key : List Nat) : Table :=
  match findIdx t key with
  | none => t
  | some i => { t with slots := Function.update t.slots i none }

/-- `RateLimiter::getTokens`: −1 when the key is missing. -/
def getTokens (t : Table) (key : List Nat) : Int :=
  match findEntry t key with
  | none => -1
  | some e => e.tokens

/-- `RateLimiter::getCurrentLimit`: −1 when the key is missing. -/
def getCurrentLimit (t : Table) (key : List Nat) : Int :=
  match findEntry t key with
  | none => -1
  | some e => e.dynamicMaxTokens

/-- `RateLimiter::addPenalty` at table level. -/
def addPenalty (t : Table) (key : List Nat) (points : Int) : Table :=
  match findIdx t key with
  | none => t
  | some i =>
    match t.slots i with
    | none => t
    | some e => { t with slots := Function.update t.slots i (some (addPenaltyE e points)) }

/-- `RateLimiter::removePenalty` at table level. -/
def removePenalty (t : Table) (key : List Nat) (points : Int) : Table :=
  match findIdx t key with
  | none => t
  | some i =>
    match t.slots i with
    | none => t
    | some e => { t with slots := Function.update t.slots i (some (removePenaltyE e points)) }

/-- `RateLimiter::tryRequest` at table level (empty-`ip` path: IP lists are
not consulted).  Returns the verdict, the updated table, and whether the
compensating distributed release was issued. -/
def tryRequest (hasBackend : Bool) (acq : AcqOutcome) (t : Table)
    (key : List Nat) (now : Int) : Bool × Table × Bool :=
  match findIdx t key with
  | none => (false, t, false)
  | some i =>
    match t.slots i with
    | none => (false, t, false)
    | some e =>
      let r := tryRequestE hasBackend acq e now
      (r.admitted, { t with slots := Function.update t.slots i (some r.entry) }, r.released)

/-! ### Concrete scenario tables

The keys are byte strings: `adK` = "ad", `caK` = "ca" (murmur-colliding pair:
both hash to bucket 329 of a 1024-slot table), `k4K` = "k4" (bucket 275). -/

/-- "ad" -/
def adK : List Nat := [97, 100]

/-- "ca" -/
def caK : List Nat := [99, 97]

/-- "k4" -/
def k4K : List Nat := [107, 52]

/-- All-invalid slot array of a fresh table. -/
def emptySlots : Nat → Option Entry := fun _ => none

/-- The entry `createLimiter(adK, 5, 1000)` builds at time 0. -/
def eAd : Entry := Entry.create adK 5 1000 false 0 0 [] 0

/-- The entry `createLimiter(caK, 5, 1000)` builds at time 0. -/
def eCa : Entry := Entry.create caK 5 1000 false 0 0 [] 0

/-- The entry `createLimiter(k4K, 100, 1000, false, 0, 10)` builds at time 0. -/
def e100 : Entry := Entry.create k4K 100 1000 false 0 10 [] 0

/-- Table after creating "ad" in a fresh 1024-bucket table. -/
def tA : Table := { bucketCount := 1024, slots := Function.update emptySlots 329 (some eAd) }

/-- Table after additionally creating "ca" (placed at 330: its home slot 329
is occupied by "ad"). -/
def tB : Table :=
  { bucketCount := 1024
    slots := Function.update (Function.update emptySlots 329 (some eAd)) 330 (some eCa) }

/-- Table after creating "k4" with base 100 and max-penalty 10 in a fresh
1024-bucket table. -/
def t100 : Table := { bucketCount := 1024, slots := Function.update emptySlots 275 (some e100) }

/-! ### Operation sequences on one entry

Table operations on a fixed key delegate to the per-entry bodies above and
write the result back into the key's slot, so sequences of operations "on a
key" are modelled as folds of the per-entry steps. -/

/-- One operation on a key's entry; temporal operations carry the
`getCurrentTimeMs()` value they observe. -/
inductive EntryOp
  | tryReq (now : Int)
  | refill (now : Int)
  | addPen (points : Int)
  | remPen (points : Int)
  | info (now : Int)
deriving Repr, DecidableEq

/-- Apply one operation to an entry (no distributed backend attached). -/
def stepE (e : Entry) : EntryOp → Entry
  | .tryReq now => (tryRequestE false AcqOutcome.acquired e now).entry
  | .refill now => refillTokens e now
  | .addPen points => addPenaltyE e points
  | .remPen points => removePenaltyE e points
  | .info now => (getRateLimitInfoE e now).2

/-- Run a sequence of operations on an entry. -/
def runE (e : Entry) (ops : List EntryOp) : Entry :=
  ops.foldl stepE e

/-- The clock observed by an operation, if it observes one. -/
def opNow : EntryOp → Option Int
  | .tryReq now => some now
  | .refill now => some now
  | .info now => some now
  | _ => none

/-- The clock is monotone: every observed time is ≥ its predecessor (and the
first is ≥ `t0`, the entry's creation time). -/
def chronB (t0 : Int) : List EntryOp → Bool
  | [] => true
  | op :: rest =>
    match opNow op with
    | none => chronB t0 rest
    | some n => decide (t0 ≤ n) && chronB n rest

/-- No penalty operations occur in the sequence. -/
def noPenaltyOps (ops : List EntryOp) : Bool :=
  ops.all fun op =>
    match op with
    | .addPen _ => false
    | .remPen _ => false
    | _ => true

/-- Every `addPen` in the sequence carries a nonnegative amount. -/
def nonNegAdds (ops : List EntryOp) : Bool :=
  ops.all fun op =>
    match op with
    | .addPen points => decide (0 ≤ points)
    | _ => true

/-- Times `ts` are monotone from `last` and each gap is short enough that the
sliding-window integer refill adds zero tokens:
`dynamic × (t − last) < refill_ms`. -/
def spacedOK (dynamic refill : Int) : Int → List Int → Bool
  | _, [] => true
  | last, t :: ts =>
    decide (last ≤ t) && decide (dynamic * (t - last) < refill) &&
      spacedOK dynamic refill t ts

/-- Fold of `tryRequest` calls (no backend) at the given times over an entry. -/
def tryReqChain (e : Entry) (ts : List Int) : Entry :=
  ts.foldl (fun acc t => (tryRequestE false AcqOutcome.acquired acc t).entry) e

/-- The j-th slot index probed by `findEntry` for `key` while it is still in
its linear phase (the first 9 probes). -/
def probePos (t : Table) (key : List Nat) (j : Nat) : Nat :=
  ((murmur3_32 key &&& (t.bucketCount - 1)) + j) &&& (t.bucketCount - 1)

/-- The first `d` slots of `key`'s probe sequence are all valid and hold
other keys (so the find loop walks past them without stopping). -/
def probeClear (t : Table) (key : List Nat) (d : Nat) : Bool :=
  (List.range d).all fun j =>
    match t.slots (probePos t key j) with
    | some e => decide (¬ e.key = key)
    | none => false

/-- Capacity invariant of an entry created with base limit `base ≥ 1` and
window `refill > 0`, at clock value `t`: tokens within `[0, base]`, dynamic
limit within `[1, base]`, policy fields intact, refill timestamp not in the
future. -/
def InvT (base refill t : Int) (e : Entry) : Prop :=
  e.baseMaxTokens = base ∧ e.refillTimeMs = refill ∧
  0 ≤ e.tokens ∧ e.tokens ≤ base ∧
  1 ≤ e.dynamicMaxTokens ∧ e.dynamicMaxTokens ≤ base ∧
  e.lastRefill ≤ t

/-- Invariant of an entry never touched by penalty operations: zero penalty
points, dynamic limit pinned at the base limit, tokens within it. -/
def InvP (e : Entry) : Prop :=
  e.penaltyPoints = 0 ∧ e.dynamicMaxTokens = e.baseMaxTokens ∧
  e.tokens ≤ e.baseMaxTokens

/-! ### Concrete entries for witnesses and counterexamples -/

/-- A fixed-window entry, base 3, window 1000 ms, created at time 0. -/
def e1w : Entry := Entry.create [107] 3 1000 false 0 0 [] 0

/-- A sliding-window entry, base 10, window 1000 ms, created at time 0. -/
def e2w : Entry := Entry.create [107] 10 1000 true 0 0 [] 0

/-- The k4 entry carrying 5 penalty points (the state `addPenalty(k4, 5)`
reaches). -/
def e3w : Entry := addPenaltyE e100 5

/-- A fixed-window entry with base 1 and a 5 ms block duration, created at
time 0 and driven to exhaustion by two `tryRequest` calls at time 0: the
second call denies and sets `blockUntil = 5`. -/
def e7 : Entry :=
  (tryRequestE false AcqOutcome.acquired
    (tryRequestE false AcqOutcome.acquired
      (Entry.create [107, 49] 1 1000 false 5 0 [] 0) 0).entry 0).entry

/-- A fixed-window entry with base 0 (so `tokens = 0` forever until refill)
and a nonempty distributed key. -/
def e8 : Entry := Entry.create [100] 0 1000 false 0 0 [100] 0

/-- A sliding-window entry, base 5, window 1000 ms, created at time 0. -/
def e10 : Entry := Entry.create [107] 5 1000 true 0 0 [] 0

/-! ### Theorems -/

/-! ### Helper lemmas about the probe loops -/

/-- With no backend attached, `tryRequest` degrades to block check, refill and
the local CAS loop; no distributed call is made and no release is issued. -/
theorem tryRequestE_noBackend (acq : AcqOutcome) (e : Entry) (now : Int) :
    tryRequestE false acq e now =
      if e.blockUntil > now then { admitted := false, entry := e, released := false }
      else
        let e1 := refillTokens e now
        if e1.tokens ≤ 0 then
          { admitted := false
            entry := if e1.blockDurationMs > 0 then
                { e1 with blockUntil := now + e1.blockDurationMs } else e1
            released := false }
        else
          { admitted := true, entry := { e1 with tokens := e1.tokens - 1 },
            released := false } := by
  unfold tryRequestE
  simp

/-- If no slot of the table holds `key`, the create probe loop settles on the
remembered first invalid slot. -/
theorem createLoop_no_match (slots : Nat → Option Entry) (mask : Nat)
    (key : List Nat) (H : ∀ j e, slots j = some e → e.key ≠ key) :
    ∀ (fuel idx fi : Nat), createLoop slots mask key idx (some fi) fuel = some fi := by
  intro fuel
  induction fuel with
  | zero => intro idx fi; rfl
  | succ n ih =>
    intro idx fi
    unfold createLoop
    cases h : slots idx with
    | none => simpa using ih ((idx + 1) &&& mask) fi
    | some e => simpa [h, H idx e h] using ih ((idx + 1) &&& mask) fi

/-- If the probed slot is invalid and no slot of the table holds `key`, the
create probe loop settles on that slot. -/
theorem createLoop_none_slot (slots : Nat → Option Entry) (mask : Nat)
    (key : List Nat) (idx fuel : Nat) (hidx : slots idx = none)
    (H : ∀ j e, slots j = some e → e.key ≠ key) :
    createLoop slots mask key idx none (fuel + 1) = some idx := by
  unfold createLoop
  simp [hidx, createLoop_no_match slots mask key H]

/-- The create probe loop walks past a valid slot holding a different key. -/
theorem createLoop_skip (slots : Nat → Option Entry) (mask : Nat)
    (key : List Nat) (idx fuel : Nat) (fi : Option Nat) (e : Entry)
    (h : slots idx = some e) (hk : ¬ e.key = key) :
    createLoop slots mask key idx fi (fuel + 1) =
      createLoop slots mask key ((idx + 1) &&& mask) fi fuel := by
  simp only [createLoop, h, hk, if_false]

/-- The find probe loop succeeds on a valid slot holding the key. -/
theorem findLoop_hit (slots : Nat → Option Entry) (mask h : Nat)
    (key : List Nat) (idx probes fuel : Nat) (e : Entry)
    (hs : slots idx = some e) (hk : e.key = key) :
    findLoop slots mask h key idx probes (fuel + 1) = some idx := by
  unfold findLoop
  simp [hs, hk]

/-- Within the first 8 probes the find probe loop steps linearly past a valid
slot holding a different key. -/
theorem findLoop_step (slots : Nat → Option Entry) (mask h : Nat)
    (key : List Nat) (idx probes fuel : Nat) (e : Entry)
    (hs : slots idx = some e) (hk : ¬ e.key = key) (hp : probes + 1 ≤ 8) :
    findLoop slots mask h key idx probes (fuel + 1) =
      findLoop slots mask h key ((idx + 1) &&& mask) (probes + 1) fuel := by
  simp only [findLoop, hs, hk, if_false, Nat.not_lt.mpr hp]

theorem mkTable_1024 : mkTable 1024 = { bucketCount := 1024, slots := emptySlots } := by
  rfl

/-- One unfolding step of the insert phase, at positive resize fuel. -/
theorem createInsert_succ (fuel : Nat) (t : Table) (key : List Nat) (e : Entry) :
    createInsert (fuel + 1) t key e =
      match createLoop t.slots (t.bucketCount - 1) key
          (murmur3_32 key &&& (t.bucketCount - 1)) none t.bucketCount with
      | some i => { t with slots := Function.update t.slots i (some e) }
      | none => createInsert fuel (resize t) key e := rfl

theorem createA : createLimiter (mkTable 1024) adK 5 1000 false 0 0 [] 0 = .ok tA := by
  have h1 : createLoop emptySlots 1023 adK (murmur3_32 adK &&& 1023) none 1024 = some 329 := by
    rw [show murmur3_32 adK &&& 1023 = 329 from by decide,
        show (1024 : Nat) = 1023 + 1 from rfl]
    exact createLoop_none_slot _ _ _ _ _ rfl (by intro j e h; simp [emptySlots] at h)
  show Except.ok (createInsert 64 (mkTable 1024) adK
      (Entry.create adK 5 1000 false 0 0 [] 0)) = .ok tA
  rw [show (64 : Nat) = 63 + 1 from rfl, createInsert_succ, mkTable_1024]
  simp only [h1]
  rfl

theorem createB : createLimiter tA caK 5 1000 false 0 0 [] 0 = .ok tB := by
  have hne : ∀ j e, tA.slots j = some e → e.key ≠ caK := by
    intro j e h
    by_cases hj : j = 329
    · subst hj
      rw [tA] at h
      simp only [Function.update_same] at h
      cases h
      decide
    · rw [tA] at h
      simp only [Function.update_noteq hj, emptySlots] at h
      cases h
  have h1 : createLoop tA.slots 1023 caK (murmur3_32 caK &&& 1023) none 1024 = some 330 := by
    rw [show murmur3_32 caK &&& 1023 = 329 from by decide,
        show (1024 : Nat) = 1023 + 1 from rfl]
    rw [createLoop_skip _ _ _ _ _ _ eAd
      (by rw [tA]; simp only [Function.update_same]) (by decide)]
    rw [show (329 + 1) &&& 1023 = 330 from by decide,
        show (1023 : Nat) = 1022 + 1 from rfl]
    exact createLoop_none_slot _ _ _ _ _
      (by rw [tA]; simp only [Function.update_noteq (by decide : (330 : Nat) ≠ 329)]; rfl) hne
  show Except.ok (createInsert 64 tA caK
      (Entry.create caK 5 1000 false 0 0 [] 0)) = .ok tB
  rw [show (64 : Nat) = 63 + 1 from rfl, createInsert_succ,
      show tA.bucketCount = 1024 from rfl]
  simp only [h1]
  rfl

theorem create100 : createLimiter (mkTable 1024) k4K 100 1000 false 0 10 [] 0 = .ok t100 := by
  have h1 : createLoop emptySlots 1023 k4K (murmur3_32 k4K &&& 1023) none 1024 = some 275 := by
    rw [show murmur3_32 k4K &&& 1023 = 275 from by decide,
        show (1024 : Nat) = 1023 + 1 from rfl]
    exact createLoop_none_slot _ _ _ _ _ rfl (by intro j e h; simp [emptySlots] at h)
  show Except.ok (createInsert 64 (mkTable 1024) k4K
      (Entry.create k4K 100 1000 false 0 10 [] 0)) = .ok t100
  rw [show (64 : Nat) = 63 + 1 from rfl, createInsert_succ, mkTable_1024]
  simp only [h1]
  rfl

/-! ### Field-preservation and bound lemmas -/

theorem refillTokens_blockUntil (e : Entry) (now : Int) :
    (refillTokens e now).blockUntil = e.blockUntil := by
  simp only [refillTokens]
  split_ifs <;> rfl

theorem refillTokens_penaltyPoints (e : Entry) (now : Int) :
    (refillTokens e now).penaltyPoints = e.penaltyPoints := by
  simp only [refillTokens]
  split_ifs <;> rfl

theorem refillTokens_distributedKey (e : Entry) (now : Int) :
    (refillTokens e now).distributedKey = e.distributedKey := by
  simp only [refillTokens]
  split_ifs <;> rfl

theorem refillTokens_baseMaxTokens (e : Entry) (now : Int) :
    (refillTokens e now).baseMaxTokens = e.baseMaxTokens := by
  simp only [refillTokens]
  split_ifs <;> rfl

theorem refillTokens_refillTimeMs (e : Entry) (now : Int) :
    (refillTokens e now).refillTimeMs = e.refillTimeMs := by
  simp only [refillTokens]
  split_ifs <;> rfl

theorem refillTokens_blockDurationMs (e : Entry) (now : Int) :
    (refillTokens e now).blockDurationMs = e.blockDurationMs := by
  simp only [refillTokens]
  split_ifs <;> rfl

theorem refillTokens_isSlidingWindow (e : Entry) (now : Int) :
    (refillTokens e now).isSlidingWindow = e.isSlidingWindow := by
  simp only [refillTokens]
  split_ifs <;> rfl

/-- Refill touches only `tokens`, `lastRefill` and `dynamicMaxTokens`, so the
penalty-derived dynamic limit it would compute next is unchanged. -/
theorem refillTokens_calc (e : Entry) (now : Int) :
    (refillTokens e now).calculateDynamicLimit = e.calculateDynamicLimit := by
  simp only [refillTokens]
  split_ifs <;> rfl

/-- The second component of `getRateLimitInfo` is the refilled entry. -/
theorem getRateLimitInfoE_snd (e : Entry) (now : Int) :
    (getRateLimitInfoE e now).2 = refillTokens e now := rfl

/-- Truncating division of nonnegatives agrees with Euclidean division. -/
theorem tdiv_nonneg_eq_ediv (a b : Int) (ha : 0 ≤ a) (hb : 0 ≤ b) :
    Int.tdiv a b = a / b :=
  Int.tdiv_eq_ediv ha hb

/-- With a nonnegative base limit the dynamic limit is nonnegative. -/
theorem calc_nonneg (e : Entry) (h : 0 ≤ e.baseMaxTokens) :
    0 ≤ e.calculateDynamicLimit := by
  simp only [Entry.calculateDynamicLimit]
  split_ifs
  · exact h
  · exact h
  · have h1 : (1 : Int) ≤ max (Int.tdiv (e.baseMaxTokens + 9) 10) 1 := le_max_right _ 1
    have h2 := le_max_right
      (e.baseMaxTokens -
        min (Int.tdiv (min e.penaltyPoints e.maxPenaltyPoints * e.baseMaxTokens)
              e.maxPenaltyPoints)
            (Int.tdiv (e.baseMaxTokens * 9) 10))
      (max (Int.tdiv (e.baseMaxTokens + 9) 10) 1)
    omega

/-- With a positive base limit the dynamic limit stays in `[1, base]`
(the spec's dynamic-limit bounds). -/
theorem calc_bounds (e : Entry) (hbase : 1 ≤ e.baseMaxTokens) :
    1 ≤ e.calculateDynamicLimit ∧ e.calculateDynamicLimit ≤ e.baseMaxTokens := by
  simp only [Entry.calculateDynamicLimit]
  split_ifs with h1 h2
  · exact ⟨hbase, le_refl _⟩
  · exact ⟨hbase, le_refl _⟩
  · have hpp : 0 < e.penaltyPoints := by omega
    have hmx : 0 < e.maxPenaltyPoints := by omega
    have hp : 0 < min e.penaltyPoints e.maxPenaltyPoints := lt_min hpp hmx
    have hred : 0 ≤ Int.tdiv (min e.penaltyPoints e.maxPenaltyPoints * e.baseMaxTokens)
        e.maxPenaltyPoints :=
      Int.tdiv_nonneg (mul_nonneg (le_of_lt hp) (by omega)) (by omega)
    have h9 : 0 ≤ Int.tdiv (e.baseMaxTokens * 9) 10 :=
      Int.tdiv_nonneg (by nlinarith) (by norm_num)
    have hminred : 0 ≤ min (Int.tdiv (min e.penaltyPoints e.maxPenaltyPoints * e.baseMaxTokens)
        e.maxPenaltyPoints) (Int.tdiv (e.baseMaxTokens * 9) 10) := le_min hred h9
    have hml : Int.tdiv (e.baseMaxTokens + 9) 10 ≤ e.baseMaxTokens := by
      rw [tdiv_nonneg_eq_ediv _ _ (by omega) (by norm_num)]
      omega
    constructor
    · have := le_max_right
        (e.baseMaxTokens -
          min (Int.tdiv (min e.penaltyPoints e.maxPenaltyPoints * e.baseMaxTokens)
                e.maxPenaltyPoints)
              (Int.tdiv (e.baseMaxTokens * 9) 10))
        (max (Int.tdiv (e.baseMaxTokens + 9) 10) 1)
      have h1' : (1 : Int) ≤ max (Int.tdiv (e.baseMaxTokens + 9) 10) 1 := le_max_right _ 1
      omega
    · apply max_le (by omega)
      exact max_le hml hbase

/-- With nonpositive penalty points the dynamic limit is the base limit. -/
theorem calc_of_pp_nonpos (e : Entry) (h : e.penaltyPoints ≤ 0) :
    e.calculateDynamicLimit = e.baseMaxTokens := by
  simp only [Entry.calculateDynamicLimit]
  split_ifs with h1
  · rfl
  · rfl

/-! ### Claims -/

/-- C1: on a valid entry, `tryRequest` returns true only if at decision time
`blockUntil ≤ now` and the token CAS reduced `tokens` from some `t ≥ 1`
(post-refill) to `t − 1`; consequently, with no refill due (fixed window,
within the window), each successful `tryRequest` decreases the token count by
exactly 1. -/
theorem claim_C1 (e : Entry) (now : Int)
    (hadm : (tryRequestE false AcqOutcome.acquired e now).admitted = true) :
    (e.blockUntil ≤ now ∧
      1 ≤ (refillTokens e now).tokens ∧
      (tryRequestE false AcqOutcome.acquired e now).entry.tokens
        = (refillTokens e now).tokens - 1) ∧
    (e.isSlidingWindow = false → now - e.lastRefill < e.refillTimeMs →
      (tryRequestE false AcqOutcome.acquired e now).entry.tokens = e.tokens - 1 ∧
      (tryRequestE false AcqOutcome.acquired e now).entry.tokens < e.tokens) := by
  have hchar := tryRequestE_noBackend AcqOutcome.acquired e now
  by_cases hb : e.blockUntil > now
  · rw [hchar] at hadm
    simp [hb] at hadm
  · by_cases ht : (refillTokens e now).tokens ≤ 0
    · rw [hchar] at hadm
      simp [hb, ht] at hadm
    · have hres : (tryRequestE false AcqOutcome.acquired e now).entry
          = { refillTokens e now with tokens := (refillTokens e now).tokens - 1 } := by
        rw [hchar]
        simp [hb, ht]
      refine ⟨⟨by omega, by omega, by rw [hres]⟩, ?_⟩
      intro hs hw
      have he : refillTokens e now = e := by
        simp [refillTokens, hs, hw]
      rw [hres, he]
      rw [he] at ht
      exact ⟨rfl, by simp⟩

/-- Witness for C1 at the fixed-window entry `e1w` and time 5. -/
theorem claim_C1_witness :
    (tryRequestE false AcqOutcome.acquired e1w 5).entry.tokens = e1w.tokens - 1 ∧
    (tryRequestE false AcqOutcome.acquired e1w 5).entry.tokens < e1w.tokens :=
  (claim_C1 e1w 5 (by decide)).2 (by decide) (by decide)

/-- C2: refill leaves a fixed-window entry untouched inside its window;
otherwise it advances `lastRefill` to `now` and stores `tokens = dynamic`
(fixed window) or `tokens = min(tokens + (dynamic × elapsed) / refill_ms,
dynamic)` computed with integer arithmetic (sliding window), also storing the
recomputed dynamic limit. -/
theorem claim_C2 (e : Entry) (now : Int) :
    (e.isSlidingWindow = false → now - e.lastRefill < e.refillTimeMs →
      refillTokens e now = e) ∧
    (e.isSlidingWindow = false → e.refillTimeMs ≤ now - e.lastRefill →
      refillTokens e now =
        { e with lastRefill := now,
                 dynamicMaxTokens := e.calculateDynamicLimit,
                 tokens := e.calculateDynamicLimit }) ∧
    (e.isSlidingWindow = true →
      refillTokens e now =
        { e with lastRefill := now,
                 dynamicMaxTokens := e.calculateDynamicLimit,
                 tokens := min
                   (e.tokens +
                     Int.tdiv (e.calculateDynamicLimit * (now - e.lastRefill))
                       e.refillTimeMs)
                   e.calculateDynamicLimit }) := by
  refine ⟨fun hs hw => by simp [refillTokens, hs, hw], fun hs hw => ?_, fun hs => ?_⟩
  · simp [refillTokens, hs, Int.not_lt.mpr hw]
  · simp [refillTokens, hs]

/-- Witness for C2 at the sliding-window entry `e2w` and time 100. -/
theorem claim_C2_witness :
    refillTokens e2w 100 =
      { e2w with lastRefill := 100,
                 dynamicMaxTokens := e2w.calculateDynamicLimit,
                 tokens := min
                   (e2w.tokens +
                     Int.tdiv (e2w.calculateDynamicLimit * (100 - e2w.lastRefill))
                       e2w.refillTimeMs)
                   e2w.calculateDynamicLimit } :=
  (claim_C2 e2w 100).2.2 (by decide)

/-- C3: the dynamic limit is the base limit whenever `maxPenaltyPoints ≤ 0`
or `penaltyPoints ≤ 0`; otherwise, with `p = min(points, maxPenaltyPoints)`,
it is `max(base − min((p·base)/maxPenalty, (base·9)/10), max((base+9)/10, 1))`;
in particular, on a limiter with base 100 and max-penalty 10, penalties 5, 10
and 3 yield current limits 50, 10 and 70. -/
theorem claim_C3 (e : Entry) :
    (e.maxPenaltyPoints ≤ 0 ∨ e.penaltyPoints ≤ 0 →
      e.calculateDynamicLimit = e.baseMaxTokens) ∧
    (0 < e.maxPenaltyPoints → 0 < e.penaltyPoints →
      e.calculateDynamicLimit =
        max (e.baseMaxTokens -
              min (Int.tdiv (min e.penaltyPoints e.maxPenaltyPoints * e.baseMaxTokens)
                    e.maxPenaltyPoints)
                  (Int.tdiv (e.baseMaxTokens * 9) 10))
            (max (Int.tdiv (e.baseMaxTokens + 9) 10) 1)) ∧
    (getCurrentLimit (addPenalty t100 k4K 5) k4K = 50 ∧
     getCurrentLimit (addPenalty (addPenalty t100 k4K 5) k4K 5) k4K = 10 ∧
     getCurrentLimit (removePenalty (addPenalty (addPenalty t100 k4K 5) k4K 5) k4K 7) k4K
       = 70) := by
  refine ⟨?_, ?_, by decide, by decide, by decide⟩
  · intro h
    rcases h with h | h
    · simp [Entry.calculateDynamicLimit, h]
    · exact calc_of_pp_nonpos e h
  · intro h1 h2
    simp only [Entry.calculateDynamicLimit]
    rw [if_neg (by omega), if_neg (by omega)]

/-- Witness for C3 at the k4 entry holding 5 penalty points. -/
theorem claim_C3_witness :
    e3w.calculateDynamicLimit =
      max (e3w.baseMaxTokens -
            min (Int.tdiv (min e3w.penaltyPoints e3w.maxPenaltyPoints * e3w.baseMaxTokens)
                  e3w.maxPenaltyPoints)
                (Int.tdiv (e3w.baseMaxTokens * 9) 10))
          (max (Int.tdiv (e3w.baseMaxTokens + 9) 10) 1) :=
  (claim_C3 e3w).2.1 (by decide) (by decide)

/-- Counterexample to C4: after `create(k4, 100, 1000, max_penalty=10)`
followed by `add_penalty(k4, 5)` — a quiescent point — `get_tokens` is 100
while `get_current_limit` is 50, breaking `get_tokens ≤ get_current_limit`. -/
theorem claim_C4_counterexample :
    createLimiter (mkTable 1024) k4K 100 1000 false 0 10 [] 0 = .ok t100 ∧
    getTokens (addPenalty t100 k4K 5) k4K = 100 ∧
    getCurrentLimit (addPenalty t100 k4K 5) k4K = 50 ∧
    ¬ getTokens (addPenalty t100 k4K 5) k4K ≤
        getCurrentLimit (addPenalty t100 k4K 5) k4K :=
  ⟨create100, by decide, by decide, by decide⟩

/-- C5 (amended): `createLimiter` raises `InvalidArgument` iff the key is
empty, `maxTokens < 0`, `refillTimeMs ≤ 0` or `blockDurationMs < 0`; a
negative `maxPenaltyPoints` is accepted silently (no validation exists). -/
theorem claim_C5_amended (t : Table) (key : List Nat) (maxTokens refillTimeMs : Int)
    (sliding : Bool) (blockMs maxPen : Int) (dist : List Nat) (now : Int) :
    isErr (createLimiter t key maxTokens refillTimeMs sliding blockMs maxPen dist now)
        = true ↔
      (key = [] ∨ maxTokens < 0 ∨ refillTimeMs ≤ 0 ∨ blockMs < 0) := by
  unfold createLimiter
  split_ifs with h1 h2 h3 h4 <;> simp_all [isErr]

/-- Counterexample to C5: `createLimiter` with `maxPenaltyPoints = −1` (and
all other arguments valid) succeeds without raising, though the claim says a
negative `max_penalty` raises `InvalidArgument`. -/
theorem claim_C5_counterexample :
    ((-1 : Int) < 0) ∧
    isErr (createLimiter (mkTable 1024) [107] 10 1000 false 0 (-1) [] 0) = false :=
  ⟨by decide, rfl⟩

/-- Witness for C5 (amended) at one concrete valid argument tuple. -/
theorem claim_C5_amended_witness :
    isErr (createLimiter (mkTable 1024) [107] 10 1000 false 0 5 [] 0) = true ↔
      (([107] : List Nat) = [] ∨ (10 : Int) < 0 ∨ (1000 : Int) ≤ 0 ∨ (0 : Int) < 0) :=
  claim_C5_amended (mkTable 1024) [107] 10 1000 false 0 5 [] 0

/-- Counterexample to C6: `add_penalty(k4, −5)` on a fresh limiter stores
`penaltyPoints = −5` — the atomic add does not clamp negative amounts at 0. -/
theorem claim_C6_counterexample :
    (findEntry (addPenalty t100 k4K (-5)) k4K).map Entry.penaltyPoints = some (-5) ∧
    ¬ (0 : Int) ≤ -5 :=
  ⟨by decide, by decide⟩

/-- C7 (amended): only the (uncalled) helper `isBlocked` clears an elapsed
`blockUntil` to 0, idempotently; `tryRequest` treats an elapsed block as open
but leaves `blockUntil` unchanged on admission, and `getRateLimitInfo` never
writes `blockUntil` at all. -/
theorem claim_C7_amended (e : Entry) (now : Int) :
    (0 < e.blockUntil → e.blockUntil ≤ now →
      isBlocked e now = (false, { e with blockUntil := 0 })) ∧
    (e.blockUntil = 0 → isBlocked e now = (false, e)) ∧
    ((tryRequestE false AcqOutcome.acquired e now).admitted = true →
      (tryRequestE false AcqOutcome.acquired e now).entry.blockUntil = e.blockUntil) ∧
    (getRateLimitInfoE e now).2.blockUntil = e.blockUntil := by
  refine ⟨?_, ?_, ?_, ?_⟩
  · intro h1 h2
    simp [isBlocked, show ¬ e.blockUntil = 0 by omega, h2]
  · intro h
    simp [isBlocked, h]
  · intro hadm
    rw [tryRequestE_noBackend] at hadm ⊢
    by_cases hb : e.blockUntil > now
    · simp [hb] at hadm
    · by_cases ht : (refillTokens e now).tokens ≤ 0
      · simp [hb, ht] at hadm
      · simp only [hb, if_false, ht]
        simp [refillTokens_blockUntil]
  · rw [getRateLimitInfoE_snd, refillTokens_blockUntil]

/-- Witness for C7 (amended) at the blocked-then-expired entry `e7` and
time 1000. -/
theorem claim_C7_amended_witness :
    isBlocked e7 1000 = (false, { e7 with blockUntil := 0 }) ∧
    (tryRequestE false AcqOutcome.acquired e7 1000).entry.blockUntil
      = e7.blockUntil ∧
    (getRateLimitInfoE e7 1000).2.blockUntil = e7.blockUntil :=
  ⟨(claim_C7_amended e7 1000).1 (by decide) (by decide),
   (claim_C7_amended e7 1000).2.2.1 (by decide),
   (claim_C7_amended e7 1000).2.2.2⟩

/-- Counterexample to C7: `e7` has `blockUntil = 5 > 0`; at time 1000 both
`tryRequest` (admitting) and `getRateLimitInfo` observe `now ≥ blockUntil`
yet leave `blockUntil = 5` instead of clearing it to 0. -/
theorem claim_C7_counterexample :
    0 < e7.blockUntil ∧ e7.blockUntil ≤ 1000 ∧
    (tryRequestE false AcqOutcome.acquired e7 1000).admitted = true ∧
    (tryRequestE false AcqOutcome.acquired e7 1000).entry.blockUntil = 5 ∧
    (getRateLimitInfoE e7 1000).2.blockUntil = 5 := by
  refine ⟨by decide, by decide, by decide, by decide, by decide⟩

/-- C8 (amended): the compensating `release(distributedKey, 1)` is issued iff
a backend is attached, the distributed key is nonempty, the entry is not
blocked, `tryAcquire` did not return false, and the post-refill token count
is ≤ 0 — in particular it is also issued when `tryAcquire` threw and no
distributed token was actually acquired. -/
theorem claim_C8_amended (hasBackend : Bool) (acq : AcqOutcome) (e : Entry) (now : Int) :
    (tryRequestE hasBackend acq e now).released = true ↔
      (hasBackend = true ∧ ¬ e.distributedKey = [] ∧ ¬ e.blockUntil > now ∧
        ¬ acq = AcqOutcome.denied ∧ (refillTokens e now).tokens ≤ 0) := by
  have hdk := refillTokens_distributedKey e now
  by_cases hb : e.blockUntil > now
  · simp [tryRequestE, hb]
  · simp only [tryRequestE, if_neg hb]
    have hda : (hasBackend && !(refillTokens e now).distributedKey.isEmpty) = true ↔
        (hasBackend = true ∧ ¬ e.distributedKey = []) := by
      rw [hdk]
      simp [List.isEmpty_eq_false]
    by_cases h1 : (hasBackend && !(refillTokens e now).distributedKey.isEmpty) = true ∧
        acq = AcqOutcome.denied
    · rw [if_pos h1]
      simp [h1.2]
    · rw [if_neg h1]
      by_cases h2 : (refillTokens e now).tokens ≤ 0
      · rw [if_pos h2]
        show (hasBackend && !(refillTokens e now).distributedKey.isEmpty) = true ↔ _
        rw [hda]
        constructor
        · rintro ⟨a, b⟩
          exact ⟨a, b, hb, fun hden => h1 ⟨hda.mpr ⟨a, b⟩, hden⟩, h2⟩
        · rintro ⟨a, b, -, -, -⟩
          exact ⟨a, b⟩
      · rw [if_neg h2]
        simp [h2]

/-- Witness for C8 (amended) at the exhausted distributed entry `e8` with a
throwing `tryAcquire`. -/
theorem claim_C8_amended_witness :
    (tryRequestE true AcqOutcome.threw e8 5).released = true ↔
      (true = true ∧ ¬ e8.distributedKey = [] ∧ ¬ e8.blockUntil > 5 ∧
        ¬ AcqOutcome.threw = AcqOutcome.denied ∧ (refillTokens e8 5).tokens ≤ 0) :=
  claim_C8_amended true AcqOutcome.threw e8 5

/-- Counterexample to C8: on entry `e8` (backend attached, nonempty
distributed key) with `tryAcquire` throwing — so no distributed token was
acquired — the local CAS loop still finds `tokens ≤ 0` and issues the
compensating release. -/
theorem claim_C8_counterexample :
    (tryRequestE true AcqOutcome.threw e8 5).released = true ∧
    (tryRequestE true AcqOutcome.threw e8 5).admitted = false :=
  ⟨by decide, by decide⟩

/-- Counterexample to C9: "ad" and "ca" hash to the same bucket (329 of
1024).  After creating "ad" then "ca" (placed at 330) and removing "ad",
`find("ca")` hits the tombstone at 329 and returns null even though "ca" was
created and never removed. -/
theorem claim_C9_counterexample :
    createLimiter (mkTable 1024) adK 5 1000 false 0 0 [] 0 = .ok tA ∧
    createLimiter tA caK 5 1000 false 0 0 [] 0 = .ok tB ∧
    findEntry tB caK = some eCa ∧
    findEntry (removeLimiter tB adK) caK = none :=
  ⟨createA, createB, by decide, by decide⟩

/-! ### Invariant preservation for operation sequences -/

theorem runE_cons (e : Entry) (op : EntryOp) (ops : List EntryOp) :
    runE e (op :: ops) = runE (stepE e op) ops := rfl

theorem tryRequestE_entry_penaltyPoints (hB : Bool) (acq : AcqOutcome)
    (e : Entry) (now : Int) :
    (tryRequestE hB acq e now).entry.penaltyPoints = e.penaltyPoints := by
  simp only [tryRequestE]
  split_ifs <;> simp [refillTokens_penaltyPoints]

theorem refill_InvT (base refill t now : Int) (e : Entry)
    (hbase : 1 ≤ base) (hrefill : 0 < refill)
    (hInv : InvT base refill t e) (hnow : t ≤ now) :
    InvT base refill now (refillTokens e now) := by
  obtain ⟨hb, hr, h0, h1, hd1, hd2, hl⟩ := hInv
  have hcalc := calc_bounds e (by omega)
  have hadd : 0 ≤ Int.tdiv (e.calculateDynamicLimit * (now - e.lastRefill))
      e.refillTimeMs :=
    Int.tdiv_nonneg (mul_nonneg (by omega) (by omega)) (by omega)
  have hmin1 : 0 ≤ min (e.tokens +
      Int.tdiv (e.calculateDynamicLimit * (now - e.lastRefill)) e.refillTimeMs)
      e.calculateDynamicLimit :=
    le_min (by omega) (by omega)
  have hmin2 : min (e.tokens +
      Int.tdiv (e.calculateDynamicLimit * (now - e.lastRefill)) e.refillTimeMs)
      e.calculateDynamicLimit ≤ e.calculateDynamicLimit := min_le_right _ _
  simp only [refillTokens]
  split_ifs with hc hs
  · exact ⟨hb, hr, h0, h1, hd1, hd2, by omega⟩
  · unfold InvT
    dsimp only
    exact ⟨hb, hr, hmin1, by omega, hcalc.1, by omega, le_refl now⟩
  · unfold InvT
    dsimp only
    exact ⟨hb, hr, by omega, by omega, hcalc.1, by omega, le_refl now⟩

theorem tryReq_InvT (base refill t now : Int) (e : Entry)
    (hbase : 1 ≤ base) (hrefill : 0 < refill)
    (hInv : InvT base refill t e) (hnow : t ≤ now) :
    InvT base refill now (tryRequestE false AcqOutcome.acquired e now).entry := by
  have hre := refill_InvT base refill t now e hbase hrefill hInv hnow
  obtain ⟨hb, hr, h0, h1, hd1, hd2, hl⟩ := hInv
  obtain ⟨hb', hr', h0', h1', hd1', hd2', hl'⟩ := hre
  rw [tryRequestE_noBackend]
  by_cases hbk : e.blockUntil > now
  · rw [if_pos hbk]
    unfold InvT
    dsimp only
    exact ⟨hb, hr, h0, h1, hd1, hd2, by omega⟩
  · rw [if_neg hbk]
    simp only []
    by_cases ht : (refillTokens e now).tokens ≤ 0
    · rw [if_pos ht]
      split_ifs with hbd <;>
        · unfold InvT
          dsimp only
          exact ⟨hb', hr', h0', h1', hd1', hd2', hl'⟩
    · rw [if_neg ht]
      unfold InvT
      dsimp only
      exact ⟨hb', hr', by omega, by omega, hd1', hd2', hl'⟩

theorem addPen_InvT (base refill t points : Int) (e : Entry)
    (hbase : 1 ≤ base) (hInv : InvT base refill t e) :
    InvT base refill t (addPenaltyE e points) := by
  obtain ⟨hb, hr, h0, h1, hd1, hd2, hl⟩ := hInv
  simp only [addPenaltyE]
  split_ifs with h
  · have hb' : ({ e with penaltyPoints := e.penaltyPoints + points } : Entry).baseMaxTokens
        = base := hb
    have hcalc := calc_bounds { e with penaltyPoints := e.penaltyPoints + points }
      (by omega)
    unfold InvT
    dsimp only
    exact ⟨hb, hr, h0, h1, hcalc.1, by omega, hl⟩
  · exact ⟨hb, hr, h0, h1, hd1, hd2, hl⟩

theorem remPen_InvT (base refill t points : Int) (e : Entry)
    (hbase : 1 ≤ base) (hInv : InvT base refill t e) :
    InvT base refill t (removePenaltyE e points) := by
  obtain ⟨hb, hr, h0, h1, hd1, hd2, hl⟩ := hInv
  simp only [removePenaltyE]
  split_ifs with h hp
  · have hb' : ({ e with penaltyPoints := max 0 (e.penaltyPoints - points) } : Entry).baseMaxTokens
        = base := hb
    have hcalc := calc_bounds { e with penaltyPoints := max 0 (e.penaltyPoints - points) }
      (by omega)
    unfold InvT
    dsimp only
    exact ⟨hb, hr, h0, h1, hcalc.1, by omega, hl⟩
  · exact ⟨hb, hr, h0, h1, hd1, hd2, hl⟩
  · exact ⟨hb, hr, h0, h1, hd1, hd2, hl⟩

theorem runE_InvT (base refill : Int) (hbase : 1 ≤ base) (hrefill : 0 < refill) :
    ∀ (ops : List EntryOp) (t : Int) (e : Entry), InvT base refill t e →
      chronB t ops = true → ∃ t', InvT base refill t' (runE e ops) := by
  intro ops
  induction ops with
  | nil => exact fun t e h _ => ⟨t, h⟩
  | cons op rest ih =>
    intro t e hInv hchron
    rw [runE_cons]
    cases op with
    | tryReq now =>
      simp only [chronB, opNow, Bool.and_eq_true, decide_eq_true_eq] at hchron
      exact ih now _ (tryReq_InvT base refill t now e hbase hrefill hInv hchron.1)
        hchron.2
    | refill now =>
      simp only [chronB, opNow, Bool.and_eq_true, decide_eq_true_eq] at hchron
      exact ih now _ (refill_InvT base refill t now e hbase hrefill hInv hchron.1)
        hchron.2
    | info now =>
      simp only [chronB, opNow, Bool.and_eq_true, decide_eq_true_eq] at hchron
      exact ih now _
        (by
          show InvT base refill now (getRateLimitInfoE e now).2
          rw [getRateLimitInfoE_snd]
          exact refill_InvT base refill t now e hbase hrefill hInv hchron.1)
        hchron.2
    | addPen p =>
      simp only [chronB, opNow] at hchron
      exact ih t _ (addPen_InvT base refill t p e hbase hInv) hchron
    | remPen p =>
      simp only [chronB, opNow] at hchron
      exact ih t _ (remPen_InvT base refill t p e hbase hInv) hchron

theorem refill_InvP (e : Entry) (now : Int) (hInv : InvP e) :
    InvP (refillTokens e now) := by
  obtain ⟨hp, hd, ht⟩ := hInv
  have hcb : e.calculateDynamicLimit = e.baseMaxTokens :=
    calc_of_pp_nonpos e (by omega)
  simp only [refillTokens]
  split_ifs with hc hs
  · exact ⟨hp, hd, ht⟩
  · exact ⟨hp, hcb, by rw [hcb]; exact le_trans (min_le_right _ _) (le_refl _)⟩
  · exact ⟨hp, hcb, by rw [hcb]⟩

theorem tryReq_InvP (e : Entry) (now : Int) (hInv : InvP e) :
    InvP (tryRequestE false AcqOutcome.acquired e now).entry := by
  have hre := refill_InvP e now hInv
  obtain ⟨hp', hd', ht'⟩ := hre
  rw [tryRequestE_noBackend]
  by_cases hbk : e.blockUntil > now
  · rw [if_pos hbk]
    exact hInv
  · rw [if_neg hbk]
    simp only []
    by_cases ht : (refillTokens e now).tokens ≤ 0
    · rw [if_pos ht]
      split_ifs with hbd <;>
        · unfold InvP
          dsimp only
          exact ⟨hp', hd', ht'⟩
    · rw [if_neg ht]
      unfold InvP
      dsimp only
      exact ⟨hp', hd', by omega⟩

theorem runE_InvP : ∀ (ops : List EntryOp) (e : Entry), InvP e →
    noPenaltyOps ops = true → InvP (runE e ops) := by
  intro ops
  induction ops with
  | nil => exact fun e h _ => h
  | cons op rest ih =>
    intro e hInv hnp
    simp only [noPenaltyOps, List.all_cons, Bool.and_eq_true] at hnp
    rw [runE_cons]
    cases op with
    | tryReq now =>
      exact ih _ (tryReq_InvP e now hInv) (by simpa [noPenaltyOps] using hnp.2)
    | refill now =>
      exact ih _ (refill_InvP e now hInv) (by simpa [noPenaltyOps] using hnp.2)
    | info now =>
      refine ih _ ?_ (by simpa [noPenaltyOps] using hnp.2)
      show InvP (getRateLimitInfoE e now).2
      rw [getRateLimitInfoE_snd]
      exact refill_InvP e now hInv
    | addPen p => simp at hnp
    | remPen p => simp at hnp

/-- C4 (amended): after any chronologically ordered operation sequence on a
key created with `max_tokens ≥ 1`, tokens stay within `[0, base]` and the
current limit within `[1, base]`; the full chain
`get_tokens ≤ get_current_limit` additionally holds for sequences without
penalty operations — `add_penalty` can shrink the limit below the token
count until the next applied refill, as the counterexample shows. -/
theorem claim_C4_amended (k dist : List Nat) (base refill blockMs maxPen t0 : Int)
    (sliding : Bool) (ops : List EntryOp)
    (hbase : 1 ≤ base) (hrefill : 0 < refill) (hchron : chronB t0 ops = true) :
    (0 ≤ (runE (Entry.create k base refill sliding blockMs maxPen dist t0) ops).tokens ∧
     (runE (Entry.create k base refill sliding blockMs maxPen dist t0) ops).tokens ≤ base ∧
     1 ≤ (runE (Entry.create k base refill sliding blockMs maxPen dist t0) ops).dynamicMaxTokens ∧
     (runE (Entry.create k base refill sliding blockMs maxPen dist t0) ops).dynamicMaxTokens ≤ base) ∧
    (noPenaltyOps ops = true →
      (runE (Entry.create k base refill sliding blockMs maxPen dist t0) ops).tokens ≤
        (runE (Entry.create k base refill sliding blockMs maxPen dist t0) ops).dynamicMaxTokens) := by
  constructor
  · obtain ⟨t', h⟩ := runE_InvT base refill hbase hrefill ops t0
      (Entry.create k base refill sliding blockMs maxPen dist t0)
      ⟨rfl, rfl, by show (0 : Int) ≤ base; omega, le_refl base, hbase,
        le_refl base, le_refl t0⟩ hchron
    exact ⟨h.2.2.1, h.2.2.2.1, h.2.2.2.2.1, h.2.2.2.2.2.1⟩
  · intro hnp
    have h := runE_InvP ops
      (Entry.create k base refill sliding blockMs maxPen dist t0)
      ⟨rfl, rfl, le_refl base⟩ hnp
    obtain ⟨-, hd, ht⟩ := h
    omega

/-- Witness for C4 (amended) on a base-3 fixed-window limiter and the
sequence `tryRequest` at time 5. -/
theorem claim_C4_amended_witness :
    (0 ≤ (runE (Entry.create [107] 3 1000 false 0 0 [] 0) [EntryOp.tryReq 5]).tokens ∧
     (runE (Entry.create [107] 3 1000 false 0 0 [] 0) [EntryOp.tryReq 5]).tokens ≤ 3 ∧
     1 ≤ (runE (Entry.create [107] 3 1000 false 0 0 [] 0) [EntryOp.tryReq 5]).dynamicMaxTokens ∧
     (runE (Entry.create [107] 3 1000 false 0 0 [] 0) [EntryOp.tryReq 5]).dynamicMaxTokens ≤ 3) ∧
    (runE (Entry.create [107] 3 1000 false 0 0 [] 0) [EntryOp.tryReq 5]).tokens ≤
      (runE (Entry.create [107] 3 1000 false 0 0 [] 0) [EntryOp.tryReq 5]).dynamicMaxTokens :=
  ⟨(claim_C4_amended [107] [] 3 1000 0 0 0 false [EntryOp.tryReq 5]
      (by decide) (by decide) (by decide)).1,
   (claim_C4_amended [107] [] 3 1000 0 0 0 false [EntryOp.tryReq 5]
      (by decide) (by decide) (by decide)).2 (by decide)⟩

theorem runE_pp_nonneg : ∀ (ops : List EntryOp) (e : Entry),
    nonNegAdds ops = true → 0 ≤ e.penaltyPoints →
      0 ≤ (runE e ops).penaltyPoints := by
  intro ops
  induction ops with
  | nil => exact fun e _ h => h
  | cons op rest ih =>
    intro e hops h
    simp only [nonNegAdds, List.all_cons, Bool.and_eq_true] at hops
    rw [runE_cons]
    refine ih _ (by simpa [nonNegAdds] using hops.2) ?_
    cases op with
    | tryReq now =>
      show 0 ≤ (tryRequestE false AcqOutcome.acquired e now).entry.penaltyPoints
      rw [tryRequestE_entry_penaltyPoints]
      exact h
    | refill now =>
      show 0 ≤ (refillTokens e now).penaltyPoints
      rw [refillTokens_penaltyPoints]
      exact h
    | info now =>
      show 0 ≤ (getRateLimitInfoE e now).2.penaltyPoints
      rw [getRateLimitInfoE_snd, refillTokens_penaltyPoints]
      exact h
    | addPen p =>
      have hp : 0 ≤ p := by simpa using hops.1
      show 0 ≤ (addPenaltyE e p).penaltyPoints
      simp only [addPenaltyE]
      split_ifs with hm
      · show 0 ≤ e.penaltyPoints + p
        omega
      · exact h
    | remPen p =>
      show 0 ≤ (removePenaltyE e p).penaltyPoints
      simp only [removePenaltyE]
      split_ifs with hm hp
      · exact le_max_left 0 _
      · exact h
      · exact h

/-- C6 (amended): `remove_penalty` floors at 0 through its CAS loop, and
`add_penalty` with a nonnegative amount keeps `penaltyPoints ≥ 0`; hence
`penaltyPoints ≥ 0` after any operation sequence whose `add_penalty` amounts
are all nonnegative.  A negative `add_penalty` amount, however, is added
unclamped (see the counterexample). -/
theorem claim_C6_amended (e : Entry) (points : Int) (ops : List EntryOp)
    (hops : nonNegAdds ops = true) :
    (0 < e.maxPenaltyPoints → 0 < e.penaltyPoints →
      (removePenaltyE e points).penaltyPoints = max 0 (e.penaltyPoints - points)) ∧
    (0 ≤ e.penaltyPoints → 0 ≤ points →
      0 ≤ (addPenaltyE e points).penaltyPoints) ∧
    (0 ≤ e.penaltyPoints → 0 ≤ (runE e ops).penaltyPoints) := by
  refine ⟨?_, ?_, ?_⟩
  · intro h1 h2
    simp only [removePenaltyE]
    rw [if_pos h1, if_pos h2]
  · intro h1 h2
    simp only [addPenaltyE]
    split_ifs with h
    · show 0 ≤ e.penaltyPoints + points
      omega
    · exact h1
  · exact runE_pp_nonneg ops e hops

/-- Witness for C6 (amended) on the k4 entry holding 5 penalty points, with
`remove_penalty(3)`, `add_penalty(2)` and the sequence
`[addPen 2, remPen 7]`. -/
theorem claim_C6_amended_witness :
    (removePenaltyE e3w 3).penaltyPoints = max 0 (e3w.penaltyPoints - 3) ∧
    0 ≤ (addPenaltyE e3w 2).penaltyPoints ∧
    0 ≤ (runE e3w [EntryOp.addPen 2, EntryOp.remPen 7]).penaltyPoints :=
  ⟨(claim_C6_amended e3w 3 [EntryOp.addPen 2, EntryOp.remPen 7]
      (by decide)).1 (by decide) (by decide),
   (claim_C6_amended e3w 2 [EntryOp.addPen 2, EntryOp.remPen 7]
      (by decide)).2.1 (by decide) (by decide),
   (claim_C6_amended e3w 3 [EntryOp.addPen 2, EntryOp.remPen 7]
      (by decide)).2.2 (by decide)⟩

/-! ### The linear phase of the find probe sequence -/

theorem mod_step (m x : Nat) (hm : 1 < m) : (x % m + 1) % m = (x + 1) % m := by
  conv_rhs => rw [Nat.add_mod]
  rw [Nat.mod_eq_of_lt hm]

/-- Walking the find loop from linear offset `j` of the home slot reaches the
key's slot at offset `d ≤ 8` when every earlier slot of the run is valid and
holds a different key. -/
theorem findLoop_reach (slots : Nat → Option Entry) (n h : Nat) (key : List Nat)
    (d : Nat) (e : Entry) (hn : 9 ≤ 2 ^ n) (hd : d ≤ 8)
    (hfound : slots ((h % 2 ^ n + d) % 2 ^ n) = some e) (hkey : e.key = key)
    (hclear : ∀ i, i < d →
      ∃ e', slots ((h % 2 ^ n + i) % 2 ^ n) = some e' ∧ ¬ e'.key = key) :
    ∀ (k j : Nat), j + k = d →
      findLoop slots (2 ^ n - 1) h key ((h % 2 ^ n + j) % 2 ^ n) j (2 ^ n - j) =
        some ((h % 2 ^ n + d) % 2 ^ n) := by
  intro k
  induction k with
  | zero =>
    intro j hj
    have hjd : j = d := by omega
    subst hjd
    rw [show 2 ^ n - j = (2 ^ n - j - 1) + 1 from by omega]
    exact findLoop_hit slots (2 ^ n - 1) h key _ j _ e hfound hkey
  | succ k ih =>
    intro j hj
    have hjd : j < d := by omega
    obtain ⟨e', hs', hk'⟩ := hclear j hjd
    rw [show 2 ^ n - j = (2 ^ n - j - 1) + 1 from by omega]
    rw [findLoop_step slots (2 ^ n - 1) h key _ j _ e' hs' hk' (by omega)]
    have hidx : ((h % 2 ^ n + j) % 2 ^ n + 1) &&& (2 ^ n - 1)
        = (h % 2 ^ n + (j + 1)) % 2 ^ n := by
      rw [Nat.and_pow_two_sub_one_eq_mod, mod_step _ _ (by omega)]
      exact congrArg (fun z => z % 2 ^ n) (by omega)
    rw [hidx, show 2 ^ n - j - 1 = 2 ^ n - (j + 1) from by omega]
    exact ih (j + 1) (by omega)

/-- C9 (amended): `find(key)` returns the valid entry holding `key` provided
the entry sits within 8 linear probes of its home slot and every earlier slot
of that run is valid (holding a different key) at lookup time.  When a
tombstone precedes the entry (from removing a colliding key inserted before
it), or the entry sits more than 8 probes out (where `find` switches to a
stride `create` never uses), `find` can miss an existing key — see the
counterexample. -/
theorem claim_C9_amended (t : Table) (key : List Nat) (d n : Nat) (e : Entry)
    (hk : ¬ key = []) (hpow : t.bucketCount = 2 ^ n) (hcnt : 9 ≤ t.bucketCount)
    (hd : d ≤ 8) (hclear : probeClear t key d = true)
    (hfound : t.slots (probePos t key d) = some e) (hkey : e.key = key) :
    findEntry t key = some e := by
  have hn : 9 ≤ 2 ^ n := hpow ▸ hcnt
  have hpp : ∀ j, probePos t key j = (murmur3_32 key % 2 ^ n + j) % 2 ^ n := by
    intro j
    simp [probePos, hpow, Nat.and_pow_two_sub_one_eq_mod]
  rw [hpp d] at hfound
  have hclear' : ∀ i, i < d →
      ∃ e', t.slots ((murmur3_32 key % 2 ^ n + i) % 2 ^ n) = some e' ∧
        ¬ e'.key = key := by
    intro i hi
    have hmem := List.all_eq_true.mp hclear i (List.mem_range.mpr hi)
    rw [hpp i] at hmem
    cases hsl : t.slots ((murmur3_32 key % 2 ^ n + i) % 2 ^ n) with
    | none =>
      rw [hsl] at hmem
      cases hmem
    | some e' =>
      rw [hsl] at hmem
      exact ⟨e', rfl, by simpa using hmem⟩
  have hfi : findIdx t key = some ((murmur3_32 key % 2 ^ n + d) % 2 ^ n) := by
    simp only [findIdx, if_neg hk]
    rw [hpow, Nat.and_pow_two_sub_one_eq_mod]
    conv_lhs =>
      rw [show murmur3_32 key % 2 ^ n = (murmur3_32 key % 2 ^ n + 0) % 2 ^ n from by
        rw [Nat.add_zero, Nat.mod_mod_of_dvd _ dvd_rfl]]
    exact findLoop_reach t.slots n (murmur3_32 key) key d e hn hd hfound hkey
      hclear' d 0 (by omega)
  simp only [findEntry, hfi]
  exact hfound

/-- Witness for C9 (amended): in the two-entry table `tB`, "ca" sits one slot
past its occupied home slot and is found. -/
theorem claim_C9_amended_witness : findEntry tB caK = some eCa :=
  claim_C9_amended tB caK 1 10 eCa (by decide) rfl (by decide) (by decide)
    (by decide) (by decide) (by decide)

/-! ### Sliding-window refill never adds tokens between sub-window calls -/

theorem refill_sliding_lastRefill (e : Entry) (now : Int)
    (hs : e.isSlidingWindow = true) :
    (refillTokens e now).lastRefill = now := by
  simp [refillTokens, hs]

/-- The sliding-window branch of refill, as one equation. -/
theorem refillTokens_sliding_eq (e : Entry) (now : Int)
    (hs : e.isSlidingWindow = true) :
    refillTokens e now =
      { e with lastRefill := now,
               dynamicMaxTokens := e.calculateDynamicLimit,
               tokens := min
                 (e.tokens +
                   Int.tdiv (e.calculateDynamicLimit * (now - e.lastRefill))
                     e.refillTimeMs)
                 e.calculateDynamicLimit } := by
  simp [refillTokens, hs]

theorem refill_sliding_no_add (e : Entry) (now : Int)
    (hs : e.isSlidingWindow = true) (hbase : 0 ≤ e.baseMaxTokens)
    (hrefill : 0 < e.refillTimeMs) (hlt : e.lastRefill ≤ now)
    (hgap : e.calculateDynamicLimit * (now - e.lastRefill) < e.refillTimeMs) :
    (refillTokens e now).tokens ≤ e.tokens := by
  have hD := calc_nonneg e hbase
  have hnum : 0 ≤ e.calculateDynamicLimit * (now - e.lastRefill) :=
    mul_nonneg hD (by omega)
  have hz : Int.tdiv (e.calculateDynamicLimit * (now - e.lastRefill))
      e.refillTimeMs = 0 := by
    rw [tdiv_nonneg_eq_ediv _ _ hnum (by omega)]
    exact Int.ediv_eq_zero_of_lt hnum hgap
  rw [refillTokens_sliding_eq e now hs]
  show min (e.tokens + Int.tdiv (e.calculateDynamicLimit * (now - e.lastRefill))
      e.refillTimeMs) e.calculateDynamicLimit ≤ e.tokens
  rw [hz, add_zero]
  exact min_le_left _ _

theorem tryReq_sliding_step (e : Entry) (tm : Int)
    (hs : e.isSlidingWindow = true) (hbase : 0 ≤ e.baseMaxTokens)
    (hrefill : 0 < e.refillTimeMs) (hbd : e.blockDurationMs = 0)
    (hbu : e.blockUntil ≤ e.lastRefill) (hlt : e.lastRefill ≤ tm)
    (hgap : e.calculateDynamicLimit * (tm - e.lastRefill) < e.refillTimeMs) :
    (tryRequestE false AcqOutcome.acquired e tm).entry.tokens ≤ e.tokens ∧
    (tryRequestE false AcqOutcome.acquired e tm).entry.lastRefill = tm ∧
    (tryRequestE false AcqOutcome.acquired e tm).entry.blockUntil = e.blockUntil ∧
    (tryRequestE false AcqOutcome.acquired e tm).entry.isSlidingWindow = true ∧
    (tryRequestE false AcqOutcome.acquired e tm).entry.baseMaxTokens
      = e.baseMaxTokens ∧
    (tryRequestE false AcqOutcome.acquired e tm).entry.refillTimeMs
      = e.refillTimeMs ∧
    (tryRequestE false AcqOutcome.acquired e tm).entry.blockDurationMs = 0 ∧
    (tryRequestE false AcqOutcome.acquired e tm).entry.calculateDynamicLimit
      = e.calculateDynamicLimit := by
  have hb : ¬ e.blockUntil > tm := by omega
  have h1t := refill_sliding_no_add e tm hs hbase hrefill hlt hgap
  have h1l := refill_sliding_lastRefill e tm hs
  rw [tryRequestE_noBackend, if_neg hb]
  simp only []
  by_cases ht : (refillTokens e tm).tokens ≤ 0
  · rw [if_pos ht]
    have hbd1 : (refillTokens e tm).blockDurationMs = 0 := by
      rw [refillTokens_blockDurationMs, hbd]
    rw [if_neg (by omega)]
    dsimp only
    exact ⟨h1t, h1l, refillTokens_blockUntil e tm,
      by rw [refillTokens_isSlidingWindow]; exact hs,
      refillTokens_baseMaxTokens e tm, refillTokens_refillTimeMs e tm, hbd1,
      refillTokens_calc e tm⟩
  · rw [if_neg ht]
    dsimp only
    refine ⟨by omega, h1l, refillTokens_blockUntil e tm,
      by rw [refillTokens_isSlidingWindow]; exact hs,
      refillTokens_baseMaxTokens e tm, refillTokens_refillTimeMs e tm,
      by rw [refillTokens_blockDurationMs, hbd], refillTokens_calc e tm⟩

theorem tryReqChain_no_add : ∀ (ts : List Int) (e : Entry),
    e.isSlidingWindow = true → 0 ≤ e.baseMaxTokens → 0 < e.refillTimeMs →
    e.blockDurationMs = 0 → e.blockUntil ≤ e.lastRefill →
    spacedOK e.calculateDynamicLimit e.refillTimeMs e.lastRefill ts = true →
    (tryReqChain e ts).tokens ≤ e.tokens := by
  intro ts
  induction ts with
  | nil => exact fun e _ _ _ _ _ _ => le_refl _
  | cons tm rest ih =>
    intro e hs hbase hrefill hbd hbu hsp
    simp only [spacedOK, Bool.and_eq_true, decide_eq_true_eq] at hsp
    obtain ⟨⟨hlt, hgap⟩, hrest⟩ := hsp
    obtain ⟨htok, hlast, hblk, hsl, hbm, hrt, hbdm, hcl⟩ :=
      tryReq_sliding_step e tm hs hbase hrefill hbd hbu hlt hgap
    show (tryReqChain (tryRequestE false AcqOutcome.acquired e tm).entry rest).tokens
      ≤ e.tokens
    refine le_trans (ih _ hsl (by omega) (by omega) hbdm (by omega) ?_) htok
    rw [hcl, hrt, hlast]
    exact hrest

/-- C10: for a sliding-window entry, refill always runs — the window gate
applies only to fixed windows — and advances `lastRefill` to `now` even when
the integer `tokensToAdd` is 0, discarding the sub-window remainder; hence a
single refill with `dynamic × elapsed < refill_ms` adds no tokens, and a run
of `tryRequest` calls each spaced by less than `refill_ms / dynamic` never
adds any tokens. -/
theorem claim_C10 (e : Entry) (now : Int) (ts : List Int)
    (hs : e.isSlidingWindow = true) (hbase : 0 ≤ e.baseMaxTokens)
    (hrefill : 0 < e.refillTimeMs) :
    ((refillTokens e now).lastRefill = now) ∧
    (e.lastRefill ≤ now →
      e.calculateDynamicLimit * (now - e.lastRefill) < e.refillTimeMs →
      (refillTokens e now).tokens ≤ e.tokens) ∧
    (e.blockDurationMs = 0 → e.blockUntil ≤ e.lastRefill →
      spacedOK e.calculateDynamicLimit e.refillTimeMs e.lastRefill ts = true →
      (tryReqChain e ts).tokens ≤ e.tokens) :=
  ⟨refill_sliding_lastRefill e now hs,
   fun hlt hgap => refill_sliding_no_add e now hs hbase hrefill hlt hgap,
   fun hbd hbu hsp => tryReqChain_no_add ts e hs hbase hrefill hbd hbu hsp⟩

/-- Witness for C10 on the sliding entry `e10` with calls at times 100 and
150 (gaps well below `refill_ms / dynamic = 200`). -/
theorem claim_C10_witness :
    ((refillTokens e10 100).lastRefill = 100) ∧
    (refillTokens e10 100).tokens ≤ e10.tokens ∧
    (tryReqChain e10 [100, 150]).tokens ≤ e10.tokens :=
  ⟨(claim_C10 e10 100 [100, 150] (by decide) (by decide) (by decide)).1,
   (claim_C10 e10 100 [100, 150] (by decide) (by decide) (by decide)).2.1
     (by decide) (by decide),
   (claim_C10 e10 100 [100, 150] (by decide) (by decide) (by decide)).2.2
     (by decide) (by decide) (by decide)⟩

end HyperLimit
